import Mathlib

/-!
Shallow embedding of the `eleztian/libio` repository: a streaming
multi-token search-and-replace reader (`StreamReplacingReader`), its token
matchers (`byteReplace`, `replacer`), and the fixed-size byte pool
(`fixed.Allocator`).

Modelling conventions:
* Go bytes are `Nat`; byte slices are `List Nat`.
* Go `float64` sizing ratios are modelled as exact rationals (`ℚ`); the Go
  conversion `int(x)` for a nonnegative `x` truncates toward zero, which is
  the floor, modelled by `goTrunc`.
* Go runtime panics (slice bounds out of range, explicit `panic` calls) are
  modelled by the `Outcome.panic` constructor, or by `Option` (`none`) for
  constructors that can only fail by panicking.
* The underlying `io.Reader` is modelled as a script: a list of chunks it
  will deliver, followed by a terminal condition code (`0` standing for
  `io.EOF`, any other value for a genuine error).
* Loops are given explicit fuel; `Outcome.fuelOut` marks fuel exhaustion and
  is distinct from any behaviour of the Go code.
-/

namespace Libio

/-- Result of running a piece of Go code that may panic; `fuelOut` is an
artefact of the fuel-based embedding, never a behaviour of the source. -/
inductive Outcome (α : Type) where
  | ok : α → Outcome α
  | panic : String → Outcome α
  | fuelOut : Outcome α
  deriving DecidableEq, Repr

/-- Helper for `bytes.Index`: first position at or after `i` where `sep`
is a prefix of the remaining buffer. -/
def indexOfAux (sep : List Nat) : List Nat → Nat → Option Nat
  | [], i => if sep.isPrefixOf ([] : List Nat) then some i else none
  | b :: t, i => if sep.isPrefixOf (b :: t) then some i else indexOfAux sep t (i + 1)

/-- Embedding of Go `bytes.Index buf sep`: index of the first occurrence
of `sep` inside `buf` (`none` for Go's `-1`). -/
def bytesIndex (buf sep : List Nat) : Option Nat :=
  indexOfAux sep buf 0

/-- Embedding of `byteReplace`: one search/replace token pair. -/
structure ByteReplace where
  search : List Nat
  replace : List Nat
  deriving DecidableEq, Repr

/-- Embedding of `byteReplace.GetSizingHints`: search length, replace
length, and the ratio `searchLen/replaceLen` when the pair grows
(`searchLen < replaceLen`), else `-1`. -/
def ByteReplace.GetSizingHints (b : ByteReplace) : Nat × Nat × ℚ :=
  (b.search.length, b.replace.length,
    if b.search.length < b.replace.length then
      (b.search.length : ℚ) / (b.replace.length : ℚ)
    else -1)

/-- Embedding of `byteReplace.Index`: `bytes.Index` of the search token
(the Go code additionally returns the pair's search and replace slices). -/
def ByteReplace.Index (b : ByteReplace) (buf : List Nat) : Option Nat :=
  bytesIndex buf b.search

/-- Embedding of the `replacer` struct: the member pairs in registration
order plus the incrementally maintained sizing hints. -/
structure Replacer where
  replaces : List ByteReplace
  maxSearchLen : Nat
  maxReplaceLen : Nat
  maxRatio : ℚ
  deriving DecidableEq, Repr

/-- Embedding of `replacer.GetSizingHints`. -/
def Replacer.GetSizingHints (r : Replacer) : Nat × Nat × ℚ :=
  (r.maxSearchLen, r.maxReplaceLen, r.maxRatio)

/-- The flat `old, new, old, new, …` argument list grouped into pairs, as
the `for i := 0; i < len(oldnews); i += 2` loop in `NewReplacer` walks it. -/
def rawPairs : List (List Nat) → List ByteReplace
  | s :: r :: t => ⟨s, r⟩ :: rawPairs t
  | _ => []

/-- One iteration of the `NewReplacer` loop body: skip a pair with an
empty search token, otherwise append it and fold its sizing hints into the
running maxima (note: the ratio is folded with `>`, i.e. a MAXIMUM). -/
def addPair (acc : Replacer) (p : ByteReplace) : Replacer :=
  if p.search = [] then acc
  else
    let h := p.GetSizingHints
    { replaces := acc.replaces ++ [p]
      maxSearchLen := if h.1 > acc.maxSearchLen then h.1 else acc.maxSearchLen
      maxReplaceLen := if h.2.1 > acc.maxReplaceLen then h.2.1 else acc.maxReplaceLen
      maxRatio := if h.2.2 > acc.maxRatio then h.2.2 else acc.maxRatio }

/-- Embedding of `NewReplacer`: `none` models the
`panic("stream.NewReplacer: odd argument count")` on an odd flat list. -/
def NewReplacer (oldnews : List (List Nat)) : Option Replacer :=
  if oldnews.length % 2 = 1 then none
  else some ((rawPairs oldnews).foldl addPair ⟨[], 0, 0, -1⟩)

/-- Loop of `replacer.Index`: linear scan over the member matchers
keeping the smallest index, a strictly smaller index replacing the current
best (so the first-registered member wins ties). -/
def indexLoop (buf : List Nat) : List ByteReplace → Option (Nat × ByteReplace) → Option (Nat × ByteReplace)
  | [], acc => acc
  | p :: ps, acc =>
    match bytesIndex buf p.search with
    | none => indexLoop buf ps acc
    | some i =>
      match acc with
      | none => indexLoop buf ps (some (i, p))
      | some (j, q) =>
        if i < j then indexLoop buf ps (some (i, p)) else indexLoop buf ps (some (j, q))

/-- Embedding of `replacer.Index`: early `(-1, nil, nil)` on an empty
buffer, otherwise the loop above starting from `resIndex = -1`. -/
def Replacer.Index (r : Replacer) (buf : List Nat) : Option (Nat × ByteReplace) :=
  if buf.isEmpty then none else indexLoop buf r.replaces none

/-- Go `int(q)` for a nonnegative rational `q` (truncation toward zero,
which is the floor): the code applies it to `ratio * float64(len(buf))`
with `ratio > 0`. -/
def goTrunc (q : ℚ) : Nat :=
  q.num.toNat / q.den

/-- Embedding of `StreamReplacingReader`.  The Go field `max` is named
`maxFill` here (`max` clashes with the Lean function).  `src`/`terminal`
script the underlying `io.Reader`: the chunks it will deliver and the
terminal condition (`0` = `io.EOF`) it reports once they run out. -/
structure SRState where
  replacer : Replacer
  maxSearchTokenLen : Nat
  src : List (List Nat)
  terminal : Nat
  err : Option Nat
  buf : List Nat
  buf0 : Nat
  buf1 : Nat
  maxFill : Nat
  deriving DecidableEq, Repr

/-- Length of the previously allocated buffer (`0` when `r.buf == nil`). -/
def oldCapacity : Option (List Nat) → Nat
  | none => 0
  | some b => b.length

/-- Embedding of `StreamReplacingReader.ResetEx`.  `oldBuf` is the
receiver's previous buffer (`none` for a fresh reader).  `none` models the
`panic("search token cannot be nil/empty")` when the hinted max search
length is 0.  (The `r1 == nil` panic is not representable: sources are
values here.) -/
def ResetEx (oldBuf : Option (List Nat)) (src : List (List Nat)) (terminal : Nat)
    (rep : Replacer) : Option SRState :=
  let h := rep.GetSizingHints
  if h.1 = 0 then none
  else
    let bufSize := Nat.max 4096 (Nat.max h.1 h.2.1)
    let buf :=
      match oldBuf with
      | none => List.replicate bufSize 0
      | some b => if b.length < bufSize then List.replicate bufSize 0 else b
    let m := if 0 < h.2.2 then goTrunc (h.2.2 * (buf.length : ℚ)) else buf.length
    some
      { replacer := rep, maxSearchTokenLen := h.1, src := src, terminal := terminal
        err := none, buf := buf, buf0 := 0, buf1 := 0, maxFill := m }

/-- Overwrite `buf` starting at `pos` with `data` (the effect of Go
`copy(buf[pos:pos+len(data)], data)` when the window fits). -/
def writeAt (buf : List Nat) (pos : Nat) (data : List Nat) : List Nat :=
  buf.take pos ++ data ++ buf.drop (pos + data.length)

/-- One pull from the scripted underlying reader into a window of `w`
bytes: the next chunk truncated to `w` (the unread remainder of the chunk
stays queued), or zero bytes plus the terminal condition once the script
is exhausted. -/
def srcRead (src : List (List Nat)) (terminal : Nat) (w : Nat) :
    List Nat × List (List Nat) × Option Nat :=
  match src with
  | [] => ([], [], some terminal)
  | c :: rest =>
    let t := c.take w
    let rem := c.drop w
    (t, if rem = [] then rest else rem :: rest, none)

/-- The Go slice-bounds violations of the in-place replacement step: the
bounds of `copy(buf[idx+rLen : buf1+lenDelta], buf[idx+sLen : buf1])` and
`copy(buf[idx : idx+rLen], replace)`, where `lenDelta = rLen - sLen`
(computed over `Int`, as Go int arithmetic). -/
def sliceOOR (cap buf1 idx sLen rLen : Nat) : Prop :=
  ((idx + rLen : Int) > (buf1 : Int) + (rLen : Int) - (sLen : Int)) ∨
    ((buf1 : Int) + (rLen : Int) - (sLen : Int) > (cap : Int)) ∨
    idx + sLen > buf1 ∨ buf1 > cap ∨ idx + rLen > cap

instance (cap buf1 idx sLen rLen : Nat) : Decidable (sliceOOR cap buf1 idx sLen rLen) := by
  unfold sliceOOR
  infer_instance

/-- The inner scan/replace loop of `StreamReplacingReader.Read`: find the
next match in `buf[buf0:buf1]`; on no match retain a tail of at most
`maxSearchTokenLen - 1` bytes (`buf0 = max(buf0, buf1-maxSearchTokenLen+1)`,
written with `+ 1` first so Nat subtraction agrees with the Go int
arithmetic); on a match do the overlap-safe shift and in-place
replacement, panicking exactly when one of the Go slice bounds is
violated. -/
def scanLoop : Nat → SRState → Outcome SRState
  | 0, _ => .fuelOut
  | fuel + 1, st =>
    match st.replacer.Index ((st.buf.take st.buf1).drop st.buf0) with
    | none => .ok { st with buf0 := Nat.max st.buf0 (st.buf1 + 1 - st.maxSearchTokenLen) }
    | some (relIdx, p) =>
      let sLen := p.search.length
      if sLen = 0 then .panic "search token cannot be nil/empty"
      else
        let rLen := p.replace.length
        let idx := relIdx + st.buf0
        let cap := st.buf.length
        if sliceOOR cap st.buf1 idx sLen rLen then
          .panic "slice bounds out of range"
        else
          let moved := (st.buf.take st.buf1).drop (idx + sLen)
          let buf2 := writeAt (writeAt st.buf (idx + rLen) moved) idx p.replace
          scanLoop fuel
            { st with buf := buf2, buf0 := idx + rLen, buf1 := st.buf1 + rLen - sLen }

/-- Embedding of `StreamReplacingReader.Read` with caller buffer capacity
`pcap` (`len(p)`), returning the copied bytes, the returned error, and the
post state.  Mirrors the Go control flow: drain `[0,buf0)` first
(reporting a pending condition only when the buffer empties, compacting
otherwise), else report a pending condition with zero bytes, else pull
from the source into `buf[buf1:maxFill]`, scan/replace, and on a source
condition record it and set `buf0 = buf1` before looping. -/
def ReadSRR : Nat → SRState → Nat → Outcome (List Nat × Option Nat × SRState)
  | 0, _, _ => .fuelOut
  | fuel + 1, st, pcap =>
    if 0 < st.buf0 then
      if st.buf.length < st.buf0 then .panic "slice bounds out of range"
      else
        let n := Nat.min pcap st.buf0
        let out := st.buf.take n
        let nb0 := st.buf0 - n
        let nb1 := st.buf1 - n
        if nb1 = 0 ∧ st.err.isSome then
          .ok (out, st.err, { st with buf0 := nb0, buf1 := nb1 })
        else
          if st.buf.length < nb1 + n then .panic "slice bounds out of range"
          else
            .ok (out, none,
              { st with buf := writeAt st.buf 0 ((st.buf.drop n).take nb1),
                        buf0 := nb0, buf1 := nb1 })
    else if st.err.isSome then
      .ok ([], st.err, st)
    else
      if st.maxFill < st.buf1 ∨ st.buf.length < st.maxFill then
        .panic "slice bounds out of range"
      else
        let rd := srcRead st.src st.terminal (st.maxFill - st.buf1)
        let data := rd.1
        let stR := { st with src := rd.2.1 }
        if 0 < data.length then
          let stF := { stR with buf := writeAt stR.buf stR.buf1 data,
                                buf1 := stR.buf1 + data.length }
          match scanLoop (fuel + 1) stF with
          | .ok st2 =>
            let st3 :=
              match rd.2.2 with
              | some k => { st2 with err := some k, buf0 := st2.buf1 }
              | none => st2
            ReadSRR fuel st3 pcap
          | .panic m => .panic m
          | .fuelOut => .fuelOut
        else
          let st3 :=
            match rd.2.2 with
            | some k => { stR with err := some k, buf0 := stR.buf1 }
            | none => stR
          ReadSRR fuel st3 pcap

/-- Pull from the stream until a terminal condition is returned,
concatenating all bytes handed out (the shape of `io.ReadAll` over the
transformed reader). -/
def drainAll : Nat → SRState → Nat → List Nat → Outcome (List Nat × Nat)
  | 0, _, _, _ => .fuelOut
  | fuel + 1, st, pcap, acc =>
    match ReadSRR (fuel + 1) st pcap with
    | .ok (out, some e, _) => .ok (acc ++ out, e)
    | .ok (out, none, st2) => drainAll fuel st2 pcap (acc ++ out)
    | .panic m => .panic m
    | .fuelOut => .fuelOut

/-- Canonical whole-string multi-pattern replace, written from the spec's
words: scan the input once, left to right; at the leftmost position where
any search token matches, take the first-registered matching pair, emit
its replacement, and continue after the consumed token; other bytes are
copied through.  Structured with fuel (any fuel at least the input length
is enough) so that it evaluates by kernel reduction. -/
def canonicalReplace (pairs : List ByteReplace) : Nat → List Nat → List Nat
  | 0, l => l
  | _, [] => []
  | fuel + 1, b :: rest =>
    match pairs.find? (fun p => p.search.isPrefixOf (b :: rest)) with
    | some p => p.replace ++ canonicalReplace pairs fuel (rest.drop (p.search.length - 1))
    | none => b :: canonicalReplace pairs fuel rest

/-- Embedding of `fixed.Allocator` from `src/bytespool/bytepool.go`: a
bounded free list (the Go buffered channel, FIFO) plus the configured
buffer count and size. -/
structure Allocator where
  freeList : List (List Nat)
  bufNum : Nat
  bufSize : Nat
  deriving DecidableEq, Repr

/-- Embedding of `fixed.NewBytePool`. -/
def NewBytePool (bufNum bufSize : Nat) : Allocator :=
  { freeList := [], bufNum := bufNum, bufSize := bufSize }

/-- Embedding of `Allocator.Get`: `nil` on a size mismatch, else a pooled
buffer if one is free, else a fresh zeroed buffer. -/
def Allocator.Get (fp : Allocator) (size : Nat) : Option (List Nat) × Allocator :=
  if fp.bufSize ≠ size then (none, fp)
  else
    match fp.freeList with
    | [] => (some (List.replicate fp.bufSize 0), fp)
    | b :: rest => (some b, { fp with freeList := rest })

/-- Embedding of `Allocator.Put`: an error (and no state change) when the
buffer length differs from the pool's fixed size; otherwise pool the
buffer if the free list has room, else drop it (non-blocking channel
send). -/
def Allocator.Put (fp : Allocator) (b : List Nat) : Option String × Allocator :=
  if b.length ≠ fp.bufSize then
    (some "invalid buffer size for fixed size pool buffer", fp)
  else
    (none,
      if fp.freeList.length < fp.bufNum then { fp with freeList := fp.freeList ++ [b] }
      else fp)

/-- Adversarial flat argument list with two growing pairs:
`"xy" → "xyz"` (ratio 2/3) and `"a" → "b"*4096` (ratio 1/4096). -/
def advFlat : List (List Nat) :=
  [[120, 121], [120, 121, 122], [97], List.replicate 4096 98]

/-- The pair `"xy" → "xyz"`. -/
def advPair1 : ByteReplace := ⟨[120, 121], [120, 121, 122]⟩

/-- The pair `"a" → "b"*4096`. -/
def advPair2 : ByteReplace := ⟨[97], List.replicate 4096 98⟩

/-- The replacer built from `advFlat`: its ratio hint is the MAXIMUM 2/3
of the two growing ratios 2/3 and 1/4096. -/
def advR : Replacer := ⟨[advPair1, advPair2], 2, 4096, 2 / 3⟩

/-- The reader state produced by `ResetEx` for `advR` over the two-byte
input `"aa"` delivered in one chunk: buffer capacity 4096 and fill bound
`⌊2/3 · 4096⌋ = 2730`. -/
def advSt0 : SRState :=
  ⟨advR, 2, [[97, 97]], 0, none, List.replicate 4096 0, 0, 0, 2730⟩

/-- The pair `"ab" → "X"` used for the chunk-boundary scenario. -/
def splitP : ByteReplace := ⟨[97, 98], [88]⟩

/-- The replacer for the single pair `"ab" → "X"` (no growing pair, so
the ratio hint stays `-1`). -/
def splitR : Replacer := ⟨[splitP], 2, 1, -1⟩

/-- Fresh reader state for `splitR` over the input `"ab"` delivered one
byte per underlying read. -/
def splitSt0 : SRState :=
  ⟨splitR, 2, [[97], [98]], 0, none, List.replicate 4096 0, 0, 0, 4096⟩

/-- State after the first pull: `"a"` buffered, nothing processed (the
retained tail), waiting for the rest of the token. -/
def splitSt1 : SRState :=
  ⟨splitR, 2, [[98]], 0, none, 97 :: List.replicate 4095 0, 0, 1, 4096⟩

/-- State after the second pull's scan: `"ab"` recognized across the
chunk boundary and replaced in place by `"X"`. -/
def splitSt2 : SRState :=
  ⟨splitR, 2, [], 0, none, 88 :: 98 :: List.replicate 4094 0, 1, 1, 4096⟩

/-- State after draining the produced `"X"`. -/
def splitSt3 : SRState :=
  ⟨splitR, 2, [], 0, none, 88 :: 98 :: List.replicate 4094 0, 0, 0, 4096⟩

/-- No member of `ps` occurs in `buf`. -/
def NoneMatch (buf : List Nat) (ps : List ByteReplace) : Prop :=
  ∀ q ∈ ps, bytesIndex buf q.search = none

/-- Every member of `ps` that occurs in `buf` first occurs at index `i`
or later. -/
def AllAtLeast (buf : List Nat) (ps : List ByteReplace) (i : Nat) : Prop :=
  ∀ q ∈ ps, ∀ j, bytesIndex buf q.search = some j → i ≤ j

/-- Every member of `ps` that occurs in `buf` first occurs strictly after
index `i`. -/
def StrictlyAfter (buf : List Nat) (ps : List ByteReplace) (i : Nat) : Prop :=
  ∀ q ∈ ps, ∀ j, bytesIndex buf q.search = some j → i < j

/-- Replacer for the pair `"a" → "b"*8192`, used to obtain a large
buffer. -/
def bigR : Replacer := ⟨[⟨[97], List.replicate 8192 98⟩], 1, 8192, 1 / 8192⟩

/-- Replacer for the small pair `"a" → "b"`. -/
def smallR : Replacer := ⟨[⟨[97], [98]⟩], 1, 1, -1⟩

/-- Two-member replacer whose tokens both first match `[5, 1, 2]` at
index 1: registration order decides the tie. -/
def wR : Replacer := ⟨[⟨[1], [9]⟩, ⟨[1, 2], [8]⟩], 2, 1, -1⟩

/-- Small state whose unprocessed region `[1, 2, 3]` contains no token. -/
def wSt : SRState := ⟨⟨[⟨[7], [9]⟩], 1, 1, -1⟩, 2, [], 0, none, [1, 2, 3], 0, 3, 3⟩

/-- Small state with a pending condition and an empty processed region;
the source still holds a chunk, which must never be read again. -/
def wStA : SRState := ⟨smallR, 1, [[3]], 7, some 5, [9, 8], 0, 0, 2⟩

/-- Small state with a pending condition and two processed bytes. -/
def wStB : SRState := ⟨smallR, 1, [], 0, some 5, [9, 8], 2, 2, 2⟩

/-- Small state with an exhausted source reporting the genuine error 6
and an empty buffer. -/
def wStC : SRState := ⟨smallR, 1, [], 6, none, [9, 8], 0, 0, 2⟩

/-- Small state with no pending condition, an exhausted source, and a
retained unprocessed tail `[9]` (`buf0 = 0 < 1 = buf1`): the next pull
records the terminal condition 3 and must force `buf0 = buf1`. -/
def wStD : SRState := ⟨smallR, 1, [], 3, none, [9, 8], 0, 1, 2⟩

/-- Fresh reader state for the pair `"ab" → "X"` over the one-chunk input
`"a"`: the lone byte is a token prefix, so it is retained unprocessed and
end of stream arrives while `buf0 = 0 < 1 = buf1`. -/
def flushSt0 : SRState :=
  ⟨splitR, 2, [[97]], 0, none, List.replicate 4096 0, 0, 0, 4096⟩

/-- State after the first pull of the flush scenario: `"a"` buffered and
retained unprocessed (a token might still complete), source exhausted. -/
def flushSt1 : SRState :=
  ⟨splitR, 2, [], 0, none, 97 :: List.replicate 4095 0, 0, 1, 4096⟩

/-- `goTrunc` is the floor for nonnegative rationals (Go `int()`
truncates toward zero, and the code only applies it to a positive
product). -/
theorem goTrunc_eq_floor (q : ℚ) (h : 0 ≤ q) : goTrunc q = (⌊q⌋).toNat := by
  have hn : 0 ≤ q.num := Rat.num_nonneg.mpr h
  have : ((q.num.toNat / q.den : ℕ) : ℤ) = ⌊q⌋ := by
    rw [Rat.floor_def, Int.ofNat_tdiv, Int.toNat_of_nonneg hn,
      Int.tdiv_eq_ediv hn (Int.natCast_nonneg q.den)]
  show q.num.toNat / q.den = _
  rw [← this, Int.toNat_natCast]

/-- Sticky branch of `Read`: with no processed bytes and a pending
condition, the call returns zero bytes, the same condition, and leaves the
state (its source included) untouched. -/
theorem ReadSRR_sticky (fuel pcap : Nat) (st : SRState) (e : Nat)
    (h0 : st.buf0 = 0) (he : st.err = some e) :
    ReadSRR (fuel + 1) st pcap = .ok ([], some e, st) := by
  simp [ReadSRR, h0, he]

/-- Drain branch of `Read`, terminal case: with a pending condition, all
processed (`buf0 = buf1 > 0`), and a large enough caller buffer, the call
hands out the processed bytes together with the pending condition. -/
theorem ReadSRR_drain_report (fuel pcap : Nat) (st : SRState) (e : Nat)
    (he : st.err = some e) (hb : st.buf0 = st.buf1) (h0 : 0 < st.buf0)
    (hcap : st.buf0 ≤ st.buf.length) (hp : st.buf0 ≤ pcap) :
    ReadSRR (fuel + 1) st pcap =
      .ok (st.buf.take st.buf0, some e, { st with buf0 := 0, buf1 := 0 }) := by
  have hn : Nat.min pcap st.buf0 = st.buf0 := Nat.min_eq_right hp
  simp [ReadSRR, h0, Nat.not_lt.mpr hcap, hn, ← hb, he]

/-- Drain branch of `Read`, partial case: when the caller buffer is
smaller than the processed region, only `pcap` bytes are handed out, no
condition is reported yet, and the buffer is compacted. -/
theorem ReadSRR_drain_partial (fuel pcap : Nat) (st : SRState)
    (h0 : 0 < st.buf0) (hp : pcap < st.buf0) (hb : st.buf0 ≤ st.buf1)
    (hcap : st.buf1 ≤ st.buf.length) :
    ReadSRR (fuel + 1) st pcap =
      .ok (st.buf.take pcap, none,
        { st with buf := writeAt st.buf 0 ((st.buf.drop pcap).take (st.buf1 - pcap)),
                  buf0 := st.buf0 - pcap, buf1 := st.buf1 - pcap }) := by
  have hcap0 : st.buf0 ≤ st.buf.length := le_trans hb hcap
  have hn : Nat.min pcap st.buf0 = pcap := Nat.min_eq_left (le_of_lt hp)
  have hne : ¬(st.buf1 - pcap = 0 ∧ st.err.isSome = true) := by
    rintro ⟨h1, -⟩
    omega
  have hfit : ¬(st.buf.length < st.buf1 - pcap + pcap) := by omega
  simp [ReadSRR, h0, Nat.not_lt.mpr hcap0, hn, hne, hfit]

/-- Fill branch of `Read` on an empty buffer: with nothing buffered, no
pending condition and an exhausted source script, the terminal condition
is recorded sticky and returned on the immediately following loop
iteration. -/
theorem ReadSRR_record_terminal (fuel pcap : Nat) (st : SRState)
    (h0 : st.buf0 = 0) (h1 : st.buf1 = 0) (he : st.err = none)
    (hsrc : st.src = []) (hfill : st.maxFill ≤ st.buf.length) :
    ReadSRR (fuel + 2) st pcap =
      .ok ([], some st.terminal, { st with err := some st.terminal }) := by
  have hw : ¬(st.maxFill < st.buf1 ∨ st.buf.length < st.maxFill) := by omega
  simp only [ReadSRR, h0, lt_irrefl, if_false, he, Option.isSome_none, Bool.false_eq_true,
    hw, if_neg]
  simp [h0, he, hw, hsrc, srcRead, h1, ReadSRR]

/-- Fill branch of `Read` with an exhausted source and an arbitrary
retained tail `[0, buf1)`: the terminal condition is recorded sticky and
`buf0` is set to `buf1` (the Go `r.buf0 = r.buf1` after the failed read),
after which the loop continues on that state. -/
theorem ReadSRR_record_step (fuel pcap : Nat) (st : SRState)
    (h0 : st.buf0 = 0) (he : st.err = none) (hsrc : st.src = [])
    (hw : st.buf1 ≤ st.maxFill) (hfill : st.maxFill ≤ st.buf.length) :
    ReadSRR (fuel + 1) st pcap =
      ReadSRR fuel { st with err := some st.terminal, buf0 := st.buf1 } pcap := by
  obtain ⟨rep, msl, src0, term, err0, buf, b0, b1, mf⟩ := st
  dsimp only at h0 he hsrc hw hfill ⊢
  subst h0
  subst he
  subst hsrc
  have hwin : ¬(mf < b1 ∨ buf.length < mf) := by omega
  simp [ReadSRR, hwin, srcRead]

/-- A pull that meets end of stream with a retained unprocessed tail
records the condition, forces `buf0 = buf1`, and (caller buffer
permitting) flushes the whole tail together with the condition in the same
pull: the "flush unconditionally at end of stream" behaviour, for an
arbitrary tail length. -/
theorem ReadSRR_record_flush (fuel pcap : Nat) (st : SRState)
    (h0 : st.buf0 = 0) (he : st.err = none) (hsrc : st.src = [])
    (hw : st.buf1 ≤ st.maxFill) (hfill : st.maxFill ≤ st.buf.length)
    (hp : st.buf1 ≤ pcap) :
    ReadSRR (fuel + 1 + 1) st pcap =
      .ok (st.buf.take st.buf1, some st.terminal,
        { st with err := some st.terminal, buf0 := 0, buf1 := 0 }) := by
  obtain ⟨rep, msl, src0, term, err0, buf, b0, b1, mf⟩ := st
  dsimp only at h0 he hsrc hw hfill hp ⊢
  subst h0
  subst he
  subst hsrc
  rw [ReadSRR_record_step (fuel + 1) pcap _ rfl rfl rfl hw hfill]
  by_cases hb : b1 = 0
  · subst hb
    exact ReadSRR_sticky fuel pcap _ term rfl rfl
  · exact ReadSRR_drain_report fuel pcap _ term rfl rfl (Nat.pos_of_ne_zero hb)
      (le_trans hw hfill) hp

/-- Scan loop, no-match branch: `buf0` advances to
`max(buf0, buf1 - maxSearchTokenLen + 1)` and the loop exits. -/
theorem scanLoop_noMatch (fuel : Nat) (st : SRState)
    (h : st.replacer.Index ((st.buf.take st.buf1).drop st.buf0) = none) :
    scanLoop (fuel + 1) st =
      .ok { st with buf0 := Nat.max st.buf0 (st.buf1 + 1 - st.maxSearchTokenLen) } := by
  simp [scanLoop, h]

/-- Scan loop, match branch, when the in-place shift violates a Go slice
bound: the Read panics. -/
theorem scanLoop_match_panic (fuel : Nat) (st : SRState) (relIdx : Nat) (p : ByteReplace)
    (h : st.replacer.Index ((st.buf.take st.buf1).drop st.buf0) = some (relIdx, p))
    (hs : p.search.length ≠ 0)
    (hbad : sliceOOR st.buf.length st.buf1 (relIdx + st.buf0) p.search.length p.replace.length) :
    scanLoop (fuel + 1) st = .panic "slice bounds out of range" := by
  simp [scanLoop, h, hs, hbad]

/-- Scan loop, match branch, in-bounds: the tail is shifted, the
replacement written in place, `buf0` moves past the replacement, `buf1` is
adjusted by the length delta, and scanning continues. -/
theorem scanLoop_match_step (fuel : Nat) (st : SRState) (relIdx : Nat) (p : ByteReplace)
    (h : st.replacer.Index ((st.buf.take st.buf1).drop st.buf0) = some (relIdx, p))
    (hs : p.search.length ≠ 0)
    (hok : ¬ sliceOOR st.buf.length st.buf1 (relIdx + st.buf0) p.search.length p.replace.length) :
    scanLoop (fuel + 1) st =
      scanLoop fuel
        { st with
          buf := writeAt
            (writeAt st.buf (relIdx + st.buf0 + p.replace.length)
              ((st.buf.take st.buf1).drop (relIdx + st.buf0 + p.search.length)))
            (relIdx + st.buf0) p.replace,
          buf0 := relIdx + st.buf0 + p.replace.length,
          buf1 := st.buf1 + p.replace.length - p.search.length } := by
  simp [scanLoop, h, hs, hok]

/-- Fill branch of `Read` when the next chunk fits the window and the
scan completes: the chunk is appended at `buf1`, the scan loop transforms
the state, and the outer loop continues with the scanned state. -/
theorem ReadSRR_fill_scan_ok (fuel pcap : Nat) (st st2 : SRState) (c : List Nat)
    (rest : List (List Nat)) (h0 : st.buf0 = 0) (he : st.err = none)
    (hsrc : st.src = c :: rest) (hc : c ≠ []) (hlen : c.length ≤ st.maxFill - st.buf1)
    (hw : st.buf1 ≤ st.maxFill) (hcap : st.maxFill ≤ st.buf.length)
    (hscan : scanLoop (fuel + 1)
      { st with src := rest, buf := writeAt st.buf st.buf1 c, buf1 := st.buf1 + c.length } =
        .ok st2) :
    ReadSRR (fuel + 1) st pcap = ReadSRR fuel st2 pcap := by
  have hwin : ¬(st.maxFill < st.buf1 ∨ st.buf.length < st.maxFill) := by omega
  have htake : c.take (st.maxFill - st.buf1) = c := List.take_of_length_le hlen
  have hdrop : c.drop (st.maxFill - st.buf1) = [] := List.drop_eq_nil_of_le hlen
  have hclen : 0 < c.length := List.length_pos.mpr hc
  rw [h0, he] at hscan
  simp [ReadSRR, h0, he, hwin, srcRead, hsrc, htake, hdrop, hclen, hscan]

/-- Fill branch of `Read` when the next chunk fits the window and the
scan panics: the panic propagates out of `Read`. -/
theorem ReadSRR_fill_scan_panic (fuel pcap : Nat) (st : SRState) (m : String) (c : List Nat)
    (rest : List (List Nat)) (h0 : st.buf0 = 0) (he : st.err = none)
    (hsrc : st.src = c :: rest) (hc : c ≠ []) (hlen : c.length ≤ st.maxFill - st.buf1)
    (hw : st.buf1 ≤ st.maxFill) (hcap : st.maxFill ≤ st.buf.length)
    (hscan : scanLoop (fuel + 1)
      { st with src := rest, buf := writeAt st.buf st.buf1 c, buf1 := st.buf1 + c.length } =
        .panic m) :
    ReadSRR (fuel + 1) st pcap = .panic m := by
  have hwin : ¬(st.maxFill < st.buf1 ∨ st.buf.length < st.maxFill) := by omega
  have htake : c.take (st.maxFill - st.buf1) = c := List.take_of_length_le hlen
  have hdrop : c.drop (st.maxFill - st.buf1) = [] := List.drop_eq_nil_of_le hlen
  have hclen : 0 < c.length := List.length_pos.mpr hc
  rw [h0, he] at hscan
  simp [ReadSRR, h0, he, hwin, srcRead, hsrc, htake, hdrop, hclen, hscan]

/-- Writing nothing at position 0 leaves the buffer unchanged. -/
theorem writeAt_zero_nil (buf : List Nat) : writeAt buf 0 [] = buf := by
  simp [writeAt]

/-- Drain branch of `Read` with no pending condition and a caller buffer
large enough for the whole processed region: the processed bytes are
handed out with no condition and the boundaries return to 0. -/
theorem ReadSRR_drain_all_noErr (fuel pcap : Nat) (st : SRState)
    (h0 : 0 < st.buf0) (he : st.err = none) (hb : st.buf0 = st.buf1)
    (hcap : st.buf0 ≤ st.buf.length) (hp : st.buf0 ≤ pcap) :
    ReadSRR (fuel + 1) st pcap =
      .ok (st.buf.take st.buf0, none, { st with buf0 := 0, buf1 := 0 }) := by
  have hn : Nat.min pcap st.buf0 = st.buf0 := Nat.min_eq_right hp
  simp [ReadSRR, h0, Nat.not_lt.mpr hcap, hn, ← hb, he, writeAt_zero_nil]

/-- `canonicalReplace` of the empty input is empty, whatever the fuel. -/
theorem canonicalReplace_nil (pairs : List ByteReplace) (fuel : Nat) :
    canonicalReplace pairs fuel [] = [] := by
  cases fuel <;> simp [canonicalReplace]

/-- A panic in `Read` propagates through the outer drain loop. -/
theorem drainAll_panic (fuel pcap : Nat) (st : SRState) (acc : List Nat) (m : String)
    (h : ReadSRR (fuel + 1) st pcap = .panic m) :
    drainAll (fuel + 1) st pcap acc = .panic m := by
  simp [drainAll, h]

/-- A successful `Read` with no condition feeds its output to the drain
loop accumulator. -/
theorem drainAll_step (fuel pcap : Nat) (st st2 : SRState) (acc out : List Nat)
    (h : ReadSRR (fuel + 1) st pcap = .ok (out, none, st2)) :
    drainAll (fuel + 1) st pcap acc = drainAll fuel st2 pcap (acc ++ out) := by
  simp [drainAll, h]

/-- A `Read` returning a terminal condition ends the drain loop. -/
theorem drainAll_done (fuel pcap : Nat) (st st2 : SRState) (acc out : List Nat) (e : Nat)
    (h : ReadSRR (fuel + 1) st pcap = .ok (out, some e, st2)) :
    drainAll (fuel + 1) st pcap acc = .ok (acc ++ out, e) := by
  simp [drainAll, h]

/-- Building the adversarial replacer: the ratio hint comes out as the
maximum 2/3. -/
theorem NewReplacer_adv : NewReplacer advFlat = some advR := by
  rw [NewReplacer, advFlat]
  norm_num [rawPairs]
  rw [show addPair ⟨[], 0, 0, -1⟩ ⟨[120, 121], [120, 121, 122]⟩ =
      ⟨[⟨[120, 121], [120, 121, 122]⟩], 2, 3, 2 / 3⟩ by
    rw [addPair]
    norm_num [ByteReplace.GetSizingHints]
    decide]
  rw [show addPair ⟨[⟨[120, 121], [120, 121, 122]⟩], 2, 3, 2 / 3⟩
      ⟨[97], List.replicate 4096 98⟩ = advR by
    rw [addPair]
    norm_num [ByteReplace.GetSizingHints, advR, advPair1, advPair2, List.length_replicate]]

/-- The adversarial fill bound: `int(2/3 * 4096) = 2730`. -/
theorem goTrunc_adv : goTrunc ((8192 : ℚ) / 3) = 2730 := by
  rw [goTrunc_eq_floor _ (by norm_num)]
  rw [show ⌊(8192 : ℚ) / 3⌋ = 2730 by norm_num]
  rfl

/-- Resetting a fresh reader with the adversarial replacer yields
`advSt0`. -/
theorem ResetEx_adv : ResetEx none [[97, 97]] 0 advR = some advSt0 := by
  rw [ResetEx]
  norm_num [Replacer.GetSizingHints, advR]
  rw [goTrunc_adv]
  rfl

/-- On the region `"aa"` the adversarial replacer matches `"a"` at 0. -/
theorem advIndex : advR.Index [97, 97] = some (0, advPair2) := by
  have h1 : bytesIndex [97, 97] advPair1.search = none := by decide
  have h2 : bytesIndex [97, 97] advPair2.search = some 0 := by
    rw [show advPair2.search = [97] from rfl]
    decide
  rw [Replacer.Index, if_neg (by decide)]
  show indexLoop [97, 97] [advPair1, advPair2] none = some (0, advPair2)
  rw [indexLoop, h1, indexLoop, h2]
  rfl

/-- On `advSt0` the very first replacement write would need
`buf1 + lenDelta = 2 + 4095 = 4097 > 4096 = len(buf)` and Go panics. -/
theorem ReadSRR_adv_panics (fuel pcap : Nat) :
    ReadSRR (fuel + 1) advSt0 pcap = .panic "slice bounds out of range" := by
  have hbuf : writeAt advSt0.buf advSt0.buf1 [97, 97] = 97 :: 97 :: List.replicate 4094 0 := by
    show writeAt (List.replicate 4096 0) 0 [97, 97] = _
    rw [writeAt, List.take_zero, List.drop_replicate]
    rfl
  refine ReadSRR_fill_scan_panic fuel pcap advSt0 _ [97, 97] [] rfl rfl rfl ?hc ?hlen ?hw
    ?hcap ?hscan
  case hc => decide
  case hlen =>
    show [97, 97].length ≤ advSt0.maxFill - advSt0.buf1
    decide
  case hw =>
    show advSt0.buf1 ≤ advSt0.maxFill
    decide
  case hcap =>
    show advSt0.maxFill ≤ advSt0.buf.length
    rw [show advSt0.buf = List.replicate 4096 0 from rfl, List.length_replicate]
    decide
  case hscan =>
    rw [hbuf]
    refine scanLoop_match_panic fuel _ 0 advPair2 ?hidx ?hs ?hbad
    case hidx =>
      show advR.Index ((List.take 2 (97 :: 97 :: List.replicate 4094 0)).drop 0) = _
      rw [show List.take 2 (97 :: 97 :: List.replicate 4094 (0 : Nat)) = [97, 97] by
        rw [List.take_succ_cons, List.take_succ_cons, List.take_zero]]
      rw [List.drop_zero, advIndex]
    case hs =>
      show advPair2.search.length ≠ 0
      decide
    case hbad =>
      show sliceOOR (97 :: 97 :: List.replicate 4094 0).length (0 + 2) (0 + 0)
        advPair2.search.length advPair2.replace.length
      rw [show (97 :: 97 :: List.replicate 4094 (0 : Nat)).length = 4096 by
        rw [List.length_cons, List.length_cons, List.length_replicate]]
      rw [show advPair2.search.length = 1 from rfl]
      rw [show advPair2.replace.length = 4096 by
        show (List.replicate 4096 (98 : Nat)).length = 4096
        rw [List.length_replicate]]
      rw [sliceOOR]
      norm_num

/-- Canonical whole-string replace of `"aa"` under the adversarial token
set: each `"a"` becomes `"b"*4096`. -/
theorem canonical_adv (fuel : Nat) :
    canonicalReplace [advPair1, advPair2] (fuel + 1 + 1) [97, 97] =
      List.replicate 4096 98 ++ List.replicate 4096 98 := by
  have hfind : List.find? (fun p => p.search.isPrefixOf [97, 97]) [advPair1, advPair2] =
      some advPair2 := by
    rw [List.find?_cons_of_neg _ (by decide), List.find?_cons_of_pos _ (by decide)]
  have hfind1 : List.find? (fun p => p.search.isPrefixOf [97]) [advPair1, advPair2] =
      some advPair2 := by
    rw [List.find?_cons_of_neg _ (by decide), List.find?_cons_of_pos _ (by decide)]
  rw [canonicalReplace, hfind]
  show advPair2.replace ++
      canonicalReplace [advPair1, advPair2] (fuel + 1)
        (List.drop (advPair2.search.length - 1) [97]) = _
  rw [show advPair2.search.length - 1 = 0 from rfl, List.drop_zero]
  rw [canonicalReplace, hfind1]
  show advPair2.replace ++
      (advPair2.replace ++
        canonicalReplace [advPair1, advPair2] fuel
          (List.drop (advPair2.search.length - 1) [])) = _
  rw [show List.drop (advPair2.search.length - 1) ([] : List Nat) = [] from rfl,
    canonicalReplace_nil]
  rw [List.append_nil]
  rw [show advPair2.replace = List.replicate 4096 98 from rfl]

/-- Building the chunk-boundary replacer for `"ab" → "X"`. -/
theorem NewReplacer_split : NewReplacer [[97, 98], [88]] = some splitR := by
  rw [NewReplacer]
  norm_num [rawPairs]
  rw [addPair]
  norm_num [ByteReplace.GetSizingHints, splitR, splitP]
  decide

/-- Resetting a fresh reader for the byte-per-read input `"ab"`. -/
theorem ResetEx_split : ResetEx none [[97], [98]] 0 splitR = some splitSt0 := by
  rw [ResetEx]
  norm_num [Replacer.GetSizingHints, splitR]
  rfl

/-- The lone byte `"a"` contains no occurrence of `"ab"`. -/
theorem splitIndex_a : splitR.Index [97] = none := by
  rw [Replacer.Index, if_neg (by decide)]
  show indexLoop [97] [splitP] none = none
  rw [indexLoop, show bytesIndex [97] splitP.search = none from by decide, indexLoop]

/-- The region `"ab"` matches the token at index 0. -/
theorem splitIndex_ab : splitR.Index [97, 98] = some (0, splitP) := by
  rw [Replacer.Index, if_neg (by decide)]
  show indexLoop [97, 98] [splitP] none = some (0, splitP)
  rw [indexLoop, show bytesIndex [97, 98] splitP.search = some 0 from by decide]
  rfl

/-- First pull: one byte read, no match (only the first half of the
token has arrived), the byte is retained unprocessed. -/
theorem split_read1 (pcap : Nat) :
    ReadSRR 3 splitSt0 pcap = ReadSRR 2 splitSt1 pcap := by
  refine ReadSRR_fill_scan_ok 2 pcap splitSt0 splitSt1 [97] [[98]] rfl rfl rfl (by decide)
    (by decide) (by decide) ?hcap ?hscan
  case hcap =>
    show splitSt0.maxFill ≤ splitSt0.buf.length
    rw [show splitSt0.buf = List.replicate 4096 0 from rfl, List.length_replicate]
    decide
  case hscan =>
    refine Eq.trans (scanLoop_noMatch 2 _ ?hidx) ?hfin
    case hidx =>
      show splitR.Index
          ((((writeAt (List.replicate 4096 0) 0 [97])).take 1).drop 0) = none
      rw [show writeAt (List.replicate 4096 0) 0 [97] = 97 :: List.replicate 4095 0 from by
        rw [writeAt, List.take_zero, List.drop_replicate]; rfl]
      rw [show List.take 1 (97 :: List.replicate 4095 (0 : Nat)) = [97] from by
        rw [List.take_succ_cons, List.take_zero]]
      rw [List.drop_zero, splitIndex_a]
    case hfin => rfl

/-- Second pull, scan part: the token completes across the boundary and
is replaced in place. -/
theorem split_scan2 :
    scanLoop 2
      { splitSt1 with src := [], buf := writeAt splitSt1.buf splitSt1.buf1 [98],
                      buf1 := splitSt1.buf1 + 1 } = .ok splitSt2 := by
  have hbuf : writeAt splitSt1.buf splitSt1.buf1 [98] = 97 :: 98 :: List.replicate 4094 0 := by
    show writeAt (97 :: List.replicate 4095 0) 1 [98] = _
    rw [writeAt, show List.take 1 (97 :: List.replicate 4095 (0 : Nat)) = [97] from by
      rw [List.take_succ_cons, List.take_zero]]
    show [97] ++ [98] ++ List.drop 1 (List.replicate 4095 0) = _
    rw [List.drop_replicate]
    rfl
  rw [hbuf]
  refine Eq.trans (scanLoop_match_step 1 _ 0 splitP ?hidx (by decide) ?hok) ?hrest
  case hidx =>
    show splitR.Index ((List.take 2 (97 :: 98 :: List.replicate 4094 0)).drop 0) = _
    rw [show List.take 2 (97 :: 98 :: List.replicate 4094 (0 : Nat)) = [97, 98] from by
      rw [List.take_succ_cons, List.take_succ_cons, List.take_zero]]
    rw [List.drop_zero, splitIndex_ab]
  case hok =>
    show ¬ sliceOOR (97 :: 98 :: List.replicate 4094 0).length 2 (0 + 0)
      splitP.search.length splitP.replace.length
    rw [show (97 :: 98 :: List.replicate 4094 (0 : Nat)).length = 4096 from by
      rw [List.length_cons, List.length_cons, List.length_replicate]]
    rw [show splitP.search.length = 2 from rfl, show splitP.replace.length = 1 from rfl]
    rw [sliceOOR]
    norm_num
  case hrest =>
    show scanLoop 1 splitSt2 = .ok splitSt2
    refine Eq.trans (scanLoop_noMatch 0 splitSt2 ?hidx2) (by rfl)
    case hidx2 =>
      rw [show (splitSt2.buf.take splitSt2.buf1).drop splitSt2.buf0 = ([] : List Nat) from by
        rw [show splitSt2.buf = 88 :: 98 :: List.replicate 4094 0 from rfl,
          show splitSt2.buf1 = 1 from rfl, show splitSt2.buf0 = 1 from rfl]
        rw [List.take_succ_cons, List.take_zero]
        rfl]
      rw [Replacer.Index]
      rfl

/-- Second pull: after the in-place replacement the scan retains nothing
and the pull loops back to drain the produced byte. -/
theorem split_read2 (pcap : Nat) (hp : 1 ≤ pcap) :
    ReadSRR 2 splitSt1 pcap = .ok ([88], none, splitSt3) := by
  have h2 : ReadSRR 2 splitSt1 pcap = ReadSRR 1 splitSt2 pcap :=
    ReadSRR_fill_scan_ok 1 pcap splitSt1 splitSt2 [98] [] rfl rfl rfl (by decide) (by decide)
      (by decide)
      (by show splitSt1.maxFill ≤ splitSt1.buf.length
          rw [show splitSt1.buf = 97 :: List.replicate 4095 0 from rfl, List.length_cons,
            List.length_replicate]
          decide)
      split_scan2
  rw [h2]
  refine Eq.trans (ReadSRR_drain_all_noErr 0 pcap splitSt2 (by decide) rfl rfl ?hcap hp) ?hfin
  case hcap =>
    show splitSt2.buf0 ≤ splitSt2.buf.length
    rw [show splitSt2.buf = 88 :: 98 :: List.replicate 4094 0 from rfl, List.length_cons,
      List.length_cons, List.length_replicate]
    decide
  case hfin =>
    rw [show splitSt2.buf.take splitSt2.buf0 = [88] from by
      rw [show splitSt2.buf = 88 :: 98 :: List.replicate 4094 0 from rfl,
        show splitSt2.buf0 = 1 from rfl, List.take_succ_cons, List.take_zero]]
    rfl

/-- Third pull: the exhausted source reports end of stream, which is
recorded sticky and returned. -/
theorem split_read3 (pcap : Nat) :
    ReadSRR 2 splitSt3 pcap = .ok ([], some 0, { splitSt3 with err := some 0 }) := by
  refine Eq.trans (ReadSRR_record_terminal 0 pcap splitSt3 rfl rfl rfl rfl ?hfill) rfl
  show splitSt3.maxFill ≤ splitSt3.buf.length
  rw [show splitSt3.buf = 88 :: 98 :: List.replicate 4094 0 from rfl, List.length_cons,
    List.length_cons, List.length_replicate]
  decide

/-- End-to-end split-token run: the byte-per-read stream of `"ab"` is
replaced by `"X"` and end of stream is then reported. -/
theorem split_run (pcap : Nat) (hp : 1 ≤ pcap) :
    drainAll 3 splitSt0 pcap [] = .ok ([88], 0) := by
  have h1 := drainAll_step 2 pcap splitSt0 splitSt3 [] [88]
    (Eq.trans (split_read1 pcap) (split_read2 pcap hp))
  have h2 := drainAll_done 1 pcap splitSt3 { splitSt3 with err := some 0 } [88] [] 0
    (split_read3 pcap)
  rw [List.nil_append] at h1
  rw [List.append_nil] at h2
  exact h1.trans h2

/-- First pull of the flush scenario: one byte read, no match (it is only
a token prefix), the byte retained unprocessed, source now exhausted. -/
theorem flush_read1 (pcap : Nat) :
    ReadSRR 3 flushSt0 pcap = ReadSRR 2 flushSt1 pcap := by
  refine ReadSRR_fill_scan_ok 2 pcap flushSt0 flushSt1 [97] [] rfl rfl rfl (by decide)
    (by decide) (by decide) ?hcap ?hscan
  case hcap =>
    show flushSt0.maxFill ≤ flushSt0.buf.length
    rw [show flushSt0.buf = List.replicate 4096 0 from rfl, List.length_replicate]
    decide
  case hscan =>
    refine Eq.trans (scanLoop_noMatch 2 _ ?hidx) ?hfin
    case hidx =>
      show splitR.Index (((writeAt (List.replicate 4096 0) 0 [97]).take 1).drop 0) = none
      rw [show writeAt (List.replicate 4096 0) 0 [97] = 97 :: List.replicate 4095 0 from by
        rw [writeAt, List.take_zero, List.drop_replicate]; rfl]
      rw [show List.take 1 (97 :: List.replicate 4095 (0 : Nat)) = [97] from by
        rw [List.take_succ_cons, List.take_zero]]
      rw [List.drop_zero, splitIndex_a]
    case hfin => rfl

/-- Second pull of the flush scenario: end of stream arrives while the
token-prefix byte is still retained (`buf0 = 0 < 1 = buf1`); the condition
is recorded, `buf0` is forced to `buf1`, and the tail byte is flushed
together with the condition in the same pull. -/
theorem flush_read2 (pcap : Nat) (hp : 1 ≤ pcap) :
    ReadSRR 2 flushSt1 pcap =
      .ok ([97], some 0, { flushSt1 with err := some 0, buf0 := 0, buf1 := 0 }) := by
  refine Eq.trans (ReadSRR_record_flush 0 pcap flushSt1 rfl rfl rfl (by decide) ?hfill hp)
    ?hfin
  case hfill =>
    show flushSt1.maxFill ≤ flushSt1.buf.length
    rw [show flushSt1.buf = 97 :: List.replicate 4095 0 from rfl, List.length_cons,
      List.length_replicate]
    decide
  case hfin =>
    rw [show flushSt1.buf.take flushSt1.buf1 = [97] from by
      rw [show flushSt1.buf = 97 :: List.replicate 4095 0 from rfl,
        show flushSt1.buf1 = 1 from rfl, List.take_succ_cons, List.take_zero]]
    rfl

/-- End-to-end flush scenario: streaming the one-chunk input `"a"` under
the pair `"ab" → "X"` yields the retained prefix byte `"a"` flushed
unconditionally at end of stream, then the terminal condition. -/
theorem flush_run (pcap : Nat) (hp : 1 ≤ pcap) :
    drainAll 3 flushSt0 pcap [] = .ok ([97], 0) := by
  have h2 := drainAll_done 2 pcap flushSt0
    { flushSt1 with err := some 0, buf0 := 0, buf1 := 0 } [] [97] 0
    (Eq.trans (flush_read1 pcap) (flush_read2 pcap hp))
  rw [List.nil_append] at h2
  exact h2

/-- The `Index` loop returns `none` exactly when it started with no best
candidate and no member matches. -/
theorem indexLoop_none_iff (buf : List Nat) :
    ∀ (ps : List ByteReplace) (acc : Option (Nat × ByteReplace)),
      indexLoop buf ps acc = none ↔ acc = none ∧ NoneMatch buf ps := by
  intro ps
  induction ps with
  | nil =>
    intro acc
    simp [indexLoop, NoneMatch]
  | cons p ps ih =>
    intro acc
    cases h : bytesIndex buf p.search with
    | none =>
      rw [show indexLoop buf (p :: ps) acc = indexLoop buf ps acc from by
        rw [indexLoop, h]]
      rw [ih acc]
      constructor
      · rintro ⟨ha, hn⟩
        refine ⟨ha, ?_⟩
        intro q hq
        rcases List.mem_cons.mp hq with rfl | hq2
        · exact h
        · exact hn q hq2
      · rintro ⟨ha, hn⟩
        exact ⟨ha, fun q hq => hn q (List.mem_cons_of_mem p hq)⟩
    | some i =>
      have hfalse : ∀ acc2 : Nat × ByteReplace,
          ¬(indexLoop buf ps (some acc2) = none) := by
        intro acc2 hcon
        rcases (ih (some acc2)).mp hcon with ⟨hbad, -⟩
        exact Option.some_ne_none _ hbad
      have hmem : p ∈ p :: ps := List.mem_cons_self p ps
      cases acc with
      | none =>
        rw [show indexLoop buf (p :: ps) none = indexLoop buf ps (some (i, p)) from by
          rw [indexLoop, h]]
        constructor
        · intro hcon
          exact absurd hcon (hfalse _)
        · rintro ⟨-, hn⟩
          exact absurd (hn p hmem) (by simp [h])
      | some jq =>
        obtain ⟨j, q⟩ := jq
        rw [show indexLoop buf (p :: ps) (some (j, q)) =
            if i < j then indexLoop buf ps (some (i, p))
            else indexLoop buf ps (some (j, q)) from by
          rw [indexLoop, h]]
        constructor
        · intro hcon
          rcases em (i < j) with hij | hij
          · rw [if_pos hij] at hcon
            exact absurd hcon (hfalse _)
          · rw [if_neg hij] at hcon
            exact absurd hcon (hfalse _)
        · rintro ⟨hbad, -⟩
          exact absurd hbad (Option.some_ne_none _)

/-- Bestness of the `Index` loop: a returned `(i, p)` either is the
incoming accumulator and every scanned member matches no earlier than `i`,
or `p` sits in the scanned list with first occurrence `i`, beats the
accumulator strictly, every member before it matches strictly later, and
every member after it no earlier. -/
theorem indexLoop_some_spec (buf : List Nat) :
    ∀ (ps : List ByteReplace) (acc : Option (Nat × ByteReplace)) (i : Nat) (p : ByteReplace),
      indexLoop buf ps acc = some (i, p) →
        (acc = some (i, p) ∧ AllAtLeast buf ps i) ∨
        (∃ pre post, ps = pre ++ p :: post ∧ bytesIndex buf p.search = some i ∧
          (∀ j q, acc = some (j, q) → i < j) ∧ StrictlyAfter buf pre i ∧
          AllAtLeast buf post i) := by
  intro ps
  induction ps with
  | nil =>
    intro acc i p h
    rw [indexLoop] at h
    exact Or.inl ⟨h, fun q hq => absurd hq (List.not_mem_nil q)⟩
  | cons q ps ih =>
    intro acc i p h
    cases hq : bytesIndex buf q.search with
    | none =>
      rw [show indexLoop buf (q :: ps) acc = indexLoop buf ps acc from by
        rw [indexLoop, hq]] at h
      rcases ih acc i p h with ⟨ha, hall⟩ | ⟨pre, post, hps, hidx, hacc, hpre, hpost⟩
      · refine Or.inl ⟨ha, ?_⟩
        intro q2 hq2 j hj
        rcases List.mem_cons.mp hq2 with rfl | hq3
        · rw [hq] at hj
          exact absurd hj (by simp)
        · exact hall q2 hq3 j hj
      · refine Or.inr ⟨q :: pre, post, by rw [hps, List.cons_append], hidx, hacc, ?_, hpost⟩
        intro q2 hq2 j hj
        rcases List.mem_cons.mp hq2 with rfl | hq3
        · rw [hq] at hj
          exact absurd hj (by simp)
        · exact hpre q2 hq3 j hj
    | some iq =>
      cases acc with
      | none =>
        rw [show indexLoop buf (q :: ps) none = indexLoop buf ps (some (iq, q)) from by
          rw [indexLoop, hq]] at h
        rcases ih (some (iq, q)) i p h with ⟨ha, hall⟩ | ⟨pre, post, hps, hidx, hacc, hpre, hpost⟩
        · obtain ⟨rfl, rfl⟩ : iq = i ∧ q = p := by
            have := Option.some.inj ha
            exact ⟨congrArg Prod.fst this, congrArg Prod.snd this⟩
          refine Or.inr ⟨[], ps, rfl, hq, ?_, ?_, hall⟩
          · intro j2 q2 hcon
            exact absurd hcon (Option.noConfusion)
          · intro q2 hq2
            exact absurd hq2 (List.not_mem_nil q2)
        · have hlt : i < iq := hacc iq q rfl
          refine Or.inr ⟨q :: pre, post, by rw [hps, List.cons_append], hidx, ?_, ?_, hpost⟩
          · intro j2 q2 hcon
            exact absurd hcon (Option.noConfusion)
          · intro q2 hq2 j hj
            rcases List.mem_cons.mp hq2 with rfl | hq3
            · rw [hq] at hj
              rw [Option.some.inj hj] at hlt
              exact hlt
            · exact hpre q2 hq3 j hj
      | some jq0 =>
        obtain ⟨j0, q0⟩ := jq0
        rw [show indexLoop buf (q :: ps) (some (j0, q0)) =
            if iq < j0 then indexLoop buf ps (some (iq, q))
            else indexLoop buf ps (some (j0, q0)) from by
          rw [indexLoop, hq]] at h
        rcases em (iq < j0) with hij | hij
        · rw [if_pos hij] at h
          rcases ih (some (iq, q)) i p h with ⟨ha, hall⟩ |
            ⟨pre, post, hps, hidx, hacc, hpre, hpost⟩
          · obtain ⟨rfl, rfl⟩ : iq = i ∧ q = p := by
              have := Option.some.inj ha
              exact ⟨congrArg Prod.fst this, congrArg Prod.snd this⟩
            refine Or.inr ⟨[], ps, rfl, hq, ?_, ?_, hall⟩
            · intro j2 q2 he
              have h1 := Option.some.inj he
              have : j0 = j2 := congrArg Prod.fst h1
              omega
            · intro q2 hq2
              exact absurd hq2 (List.not_mem_nil q2)
          · have hlt : i < iq := hacc iq q rfl
            refine Or.inr ⟨q :: pre, post, by rw [hps, List.cons_append], hidx, ?_, ?_, hpost⟩
            · intro j2 q2 he
              have h1 := Option.some.inj he
              have : j0 = j2 := congrArg Prod.fst h1
              omega
            · intro q2 hq2 j hj
              rcases List.mem_cons.mp hq2 with rfl | hq3
              · rw [hq] at hj
                rw [Option.some.inj hj] at hlt
                exact hlt
              · exact hpre q2 hq3 j hj
        · rw [if_neg hij] at h
          rcases ih (some (j0, q0)) i p h with ⟨ha, hall⟩ |
            ⟨pre, post, hps, hidx, hacc, hpre, hpost⟩
          · obtain ⟨rfl, rfl⟩ : j0 = i ∧ q0 = p := by
              have := Option.some.inj ha
              exact ⟨congrArg Prod.fst this, congrArg Prod.snd this⟩
            refine Or.inl ⟨rfl, ?_⟩
            intro q2 hq2 j hj
            rcases List.mem_cons.mp hq2 with rfl | hq3
            · rw [hq] at hj
              rw [Option.some.inj hj] at hij
              omega
            · exact hall q2 hq3 j hj
          · have hlt : i < j0 := hacc j0 q0 rfl
            refine Or.inr ⟨q :: pre, post, by rw [hps, List.cons_append], hidx, ?_, ?_, hpost⟩
            · intro j2 q2 he
              have h1 := Option.some.inj he
              have : j0 = j2 := congrArg Prod.fst h1
              omega
            · intro q2 hq2 j hj
              rcases List.mem_cons.mp hq2 with rfl | hq3
              · rw [hq] at hj
                have hje := Option.some.inj hj
                omega
              · exact hpre q2 hq3 j hj

/-- The `replaces` list built by the `NewReplacer` fold is exactly the
raw pair list with empty-search pairs filtered out, in input order. -/
theorem foldl_addPair_replaces :
    ∀ (l : List ByteReplace) (acc : Replacer),
      (l.foldl addPair acc).replaces =
        acc.replaces ++ l.filter (fun p => !p.search.isEmpty) := by
  intro l
  induction l with
  | nil =>
    intro acc
    simp
  | cons p l ih =>
    intro acc
    rw [List.foldl_cons, ih]
    by_cases hp : p.search = []
    · rw [show addPair acc p = acc from by rw [addPair, if_pos hp]]
      rw [show List.filter (fun p => !p.search.isEmpty) (p :: l) =
          List.filter (fun p => !p.search.isEmpty) l from by
        rw [List.filter_cons]
        simp [hp]]
    · rw [show (addPair acc p).replaces = acc.replaces ++ [p] from by
        rw [addPair, if_neg hp]]
      rw [show List.filter (fun p => !p.search.isEmpty) (p :: l) =
          p :: List.filter (fun p => !p.search.isEmpty) l from by
        rw [List.filter_cons]
        simp [hp]]
      rw [List.append_assoc]
      rfl

/-- A fresh reset with `bigR` allocates an 8192-byte buffer. -/
theorem ResetEx_bigR_buf :
    (ResetEx none [] 0 bigR).map (fun st => st.buf.length) = some 8192 := by
  rw [ResetEx]
  norm_num [Replacer.GetSizingHints, bigR]

/-- Resetting with `smallR` while owning an 8192-byte buffer keeps the
8192-byte buffer (the code reallocates only when the old one is smaller). -/
theorem ResetEx_reuse_big :
    (ResetEx (some (List.replicate 8192 0)) [] 0 smallR).map (fun st => st.buf.length) =
      some 8192 := by
  rw [ResetEx]
  norm_num [Replacer.GetSizingHints, smallR]

/-- General `ResetEx` characterization: the resulting capacity is the
maximum of the previous capacity and `max(4096, maxSearchLen,
maxReplaceLen)`; the fill bound is the capacity, or `⌊ratio·capacity⌋`
when a positive growth ratio is reported; boundaries and the sticky
condition are cleared. -/
theorem ResetEx_spec (old : Option (List Nat)) (src : List (List Nat)) (term : Nat)
    (r : Replacer) (hs : r.maxSearchLen ≠ 0) :
    ∃ st, ResetEx old src term r = some st ∧
      st.buf.length =
        Nat.max (oldCapacity old) (Nat.max 4096 (Nat.max r.maxSearchLen r.maxReplaceLen)) ∧
      st.maxFill = (if 0 < r.maxRatio then
        (⌊r.maxRatio * (st.buf.length : ℚ)⌋).toNat else st.buf.length) ∧
      st.buf0 = 0 ∧ st.buf1 = 0 ∧ st.err = none ∧ st.src = src ∧ st.replacer = r ∧
      st.maxSearchTokenLen = r.maxSearchLen := by
  simp only [ResetEx, Replacer.GetSizingHints]
  rw [if_neg hs]
  refine ⟨_, rfl, ?_, ?_, rfl, rfl, rfl, rfl, rfl, rfl⟩
  · rcases old with - | b
    · simp only [oldCapacity, List.length_replicate]
      exact (Nat.max_eq_right (Nat.zero_le _)).symm
    · simp only [oldCapacity]
      by_cases hb : b.length < Nat.max 4096 (Nat.max r.maxSearchLen r.maxReplaceLen)
      · rw [if_pos hb, List.length_replicate]
        exact (Nat.max_eq_right (le_of_lt hb)).symm
      · rw [if_neg hb]
        exact (Nat.max_eq_left (Nat.le_of_not_lt hb)).symm
  · by_cases hr : 0 < r.maxRatio
    · rw [if_pos hr, if_pos hr, goTrunc_eq_floor _ (mul_nonneg (le_of_lt hr) (by positivity))]
    · rw [if_neg hr, if_neg hr]

/-- Claim C1: the spec says streaming plus concatenation reproduces the
canonical whole-string leftmost multi-pattern replace for every token set.
The code violates this: with the two growing pairs `"xy" → "xyz"` and
`"a" → "b"*4096`, the fill bound uses the MAXIMUM ratio 2/3 instead of the
minimum 1/4096, and on input `"aa"` the drain loop dies with a slice
bounds panic, while the canonical replace produces `"b"*8192`. -/
theorem claim1_stream_vs_canonical :
    NewReplacer advFlat = some advR ∧
    ResetEx none [[97, 97]] 0 advR = some advSt0 ∧
    drainAll 3 advSt0 8192 [] = .panic "slice bounds out of range" ∧
    canonicalReplace [advPair1, advPair2] 2 [97, 97] =
      List.replicate 4096 98 ++ List.replicate 4096 98 :=
  ⟨NewReplacer_adv, ResetEx_adv,
    drainAll_panic 2 8192 advSt0 [] _ (ReadSRR_adv_panics 2 8192), canonical_adv 0⟩

/-- Claim C2: the spec says the write boundary `buf1 + lenDelta` never
exceeds `len(buf)` for any token set.  The code violates this: under the
adversarial token set the buffer is 4096 bytes with fill bound 2730, yet
the very first replacement on input `"aa"` needs the boundary
`2 + 4095 = 4097 > 4096`, a Go slice-bounds panic. -/
theorem claim2_buffer_overflow :
    ResetEx none [[97, 97]] 0 advR = some advSt0 ∧
    advSt0.buf.length = 4096 ∧ advSt0.maxFill = 2730 ∧
    ReadSRR 2 advSt0 4096 = .panic "slice bounds out of range" :=
  ⟨ResetEx_adv,
    by rw [show advSt0.buf = List.replicate 4096 0 from rfl, List.length_replicate],
    rfl, ReadSRR_adv_panics 1 4096⟩

/-- Claim C3: the spec says the aggregated growth ratio is the MINIMUM
over growing pairs of `len(search)/len(replace)`.  The code folds the
per-pair ratios with `>`, i.e. reports the MAXIMUM: on the two growing
pairs with ratios 2/3 and 1/4096 it reports 2/3, not the minimum 1/4096
the safety argument needs.  (The other two hints are indeed the
component-wise maxima, here 2 and 4096.) -/
theorem claim3_ratio_is_max_not_min :
    (NewReplacer advFlat).map Replacer.GetSizingHints = some (2, 4096, 2 / 3) ∧
    advPair1.GetSizingHints.2.2 = 2 / 3 ∧
    advPair2.GetSizingHints.2.2 = 1 / 4096 ∧
    (2 / 3 : ℚ) = max (2 / 3) (1 / 4096) ∧ (2 / 3 : ℚ) ≠ min (2 / 3) (1 / 4096) := by
  refine ⟨?_, ?_, ?_, by norm_num, by norm_num⟩
  · rw [NewReplacer_adv]
    rfl
  · norm_num [ByteReplace.GetSizingHints, advPair1]
  · norm_num [ByteReplace.GetSizingHints, advPair2, List.length_replicate]

/-- Claim C4 (counterexample): resetting a reader that already owns an
8192-byte buffer with a replacer whose hints only need 4096 keeps the
8192-byte buffer, so the capacity is NOT `max(4096, maxSearchLen,
maxReplaceLen) = 4096`.  The first conjunct shows the 8192-byte buffer
arises from a legitimate earlier reset. -/
theorem claim4_counterexample :
    (ResetEx none [] 0 bigR).map (fun st => st.buf.length) = some 8192 ∧
    (ResetEx (some (List.replicate 8192 0)) [] 0 smallR).map (fun st => st.buf.length) =
      some 8192 ∧
    Nat.max 4096 (Nat.max smallR.maxSearchLen smallR.maxReplaceLen) = 4096 :=
  ⟨ResetEx_bigR_buf, ResetEx_reuse_big, rfl⟩

/-- Claim C4 (amended): on `ResetEx` the buffer capacity is the maximum
of the previous buffer capacity and `max(4096, maxSearchLen,
maxReplaceLen)` (so exactly the latter for a fresh reader), and the fill
bound equals the capacity when the reported growth ratio is not positive,
otherwise `floor(ratio * capacity)`. -/
theorem claim4_reset_sizing (old : Option (List Nat)) (src : List (List Nat)) (term : Nat)
    (r : Replacer) (hs : r.maxSearchLen ≠ 0) :
    ∃ st, ResetEx old src term r = some st ∧
      st.buf.length =
        Nat.max (oldCapacity old) (Nat.max 4096 (Nat.max r.maxSearchLen r.maxReplaceLen)) ∧
      st.maxFill = (if 0 < r.maxRatio then
        (⌊r.maxRatio * (st.buf.length : ℚ)⌋).toNat else st.buf.length) := by
  obtain ⟨st, h1, h2, h3, -⟩ := ResetEx_spec old src term r hs
  exact ⟨st, h1, h2, h3⟩

theorem claim4_reset_sizing_witness :
    smallR.maxSearchLen ≠ 0 ∧
    ∃ st, ResetEx none [] 0 smallR = some st ∧
      st.buf.length =
        Nat.max (oldCapacity none)
          (Nat.max 4096 (Nat.max smallR.maxSearchLen smallR.maxReplaceLen)) ∧
      st.maxFill = (if 0 < smallR.maxRatio then
        (⌊smallR.maxRatio * (st.buf.length : ℚ)⌋).toNat else st.buf.length) :=
  ⟨by decide, claim4_reset_sizing none [] 0 smallR (by decide)⟩

/-- Claim C5: the aggregated `Index` returns `none` exactly on an empty
buffer or when no member occurs; a returned `(i, p)` is a first occurrence
of `p.search` at `i`, no member occurs before `i`, and every member
registered before `p` occurs strictly after `i` (so on ties the
first-registered member wins). -/
theorem claim5_index_earliest (r : Replacer) (buf : List Nat) :
    (r.Index buf = none ↔ (buf = [] ∨ NoneMatch buf r.replaces)) ∧
    (∀ i p, r.Index buf = some (i, p) →
      buf ≠ [] ∧ bytesIndex buf p.search = some i ∧
      AllAtLeast buf r.replaces i ∧
      ∃ pre post, r.replaces = pre ++ p :: post ∧ StrictlyAfter buf pre i) := by
  rw [Replacer.Index]
  by_cases hb : buf = []
  · rw [if_pos (by rw [hb]; rfl)]
    constructor
    · simp [hb]
    · intro i p h
      exact absurd h (by simp)
  · rw [if_neg (by simp [hb])]
    constructor
    · rw [indexLoop_none_iff]
      simp [hb, NoneMatch]
    · intro i p h
      rcases indexLoop_some_spec buf r.replaces none i p h with ⟨hbad, -⟩ |
        ⟨pre, post, hps, hidx, -, hpre, hpost⟩
      · exact absurd hbad (by simp)
      · refine ⟨hb, hidx, ?_, pre, post, hps, hpre⟩
        intro q hq j hj
        rw [hps] at hq
        rcases List.mem_append.mp hq with hq1 | hq2
        · exact le_of_lt (hpre q hq1 j hj)
        · rcases List.mem_cons.mp hq2 with rfl | hq3
          · rw [hidx] at hj
            rw [Option.some.inj hj]
          · exact hpost q hq3 j hj

theorem claim5_index_earliest_witness :
    wR.Index [5, 1, 2] = some (1, ⟨[1], [9]⟩) ∧
    bytesIndex [5, 1, 2] ([1] : List Nat) = some 1 ∧
    AllAtLeast [5, 1, 2] wR.replaces 1 ∧
    wR.Index [] = none := by
  have h := (claim5_index_earliest wR [5, 1, 2]).2 1 ⟨[1], [9]⟩ (by decide)
  exact ⟨by decide, h.2.1, h.2.2.1, (claim5_index_earliest wR []).1.mpr (Or.inl rfl)⟩

/-- Claim C6: when a scan finds no match, `buf0` advances to
`max(buf0, buf1 - maxSearchTokenLen + 1)`, retaining at most
`maxSearchTokenLen - 1` unprocessed bytes; consequently the token
`"ab" → "X"` delivered one byte per underlying read is still found and
replaced (concrete regression run). -/
theorem claim6_tail_retention :
    (∀ fuel (st : SRState),
      st.replacer.Index ((st.buf.take st.buf1).drop st.buf0) = none →
        scanLoop (fuel + 1) st =
          .ok { st with buf0 := Nat.max st.buf0 (st.buf1 + 1 - st.maxSearchTokenLen) } ∧
        (1 ≤ st.maxSearchTokenLen →
          st.buf1 - Nat.max st.buf0 (st.buf1 + 1 - st.maxSearchTokenLen) ≤
            st.maxSearchTokenLen - 1)) ∧
    NewReplacer [[97, 98], [88]] = some splitR ∧
    ResetEx none [[97], [98]] 0 splitR = some splitSt0 ∧
    (∀ pcap, 1 ≤ pcap → drainAll 3 splitSt0 pcap [] = .ok ([88], 0)) := by
  refine ⟨?_, NewReplacer_split, ResetEx_split, split_run⟩
  intro fuel st h
  refine ⟨scanLoop_noMatch fuel st h, ?_⟩
  intro h1
  rcases Nat.le_total st.buf0 (st.buf1 + 1 - st.maxSearchTokenLen) with hle | hle
  · have hmax : Nat.max st.buf0 (st.buf1 + 1 - st.maxSearchTokenLen) =
        st.buf1 + 1 - st.maxSearchTokenLen := Nat.max_eq_right hle
    rw [hmax]
    omega
  · have hmax : Nat.max st.buf0 (st.buf1 + 1 - st.maxSearchTokenLen) = st.buf0 :=
      Nat.max_eq_left hle
    rw [hmax]
    omega

theorem claim6_tail_retention_witness :
    scanLoop 1 wSt =
      .ok { wSt with buf0 := Nat.max wSt.buf0 (wSt.buf1 + 1 - wSt.maxSearchTokenLen) } ∧
    wSt.buf1 - Nat.max wSt.buf0 (wSt.buf1 + 1 - wSt.maxSearchTokenLen) ≤
      wSt.maxSearchTokenLen - 1 ∧
    drainAll 3 splitSt0 4096 [] = .ok ([88], 0) := by
  obtain ⟨hgen, -, -, hrun⟩ := claim6_tail_retention
  obtain ⟨h1, h2⟩ := hgen 0 wSt (by decide)
  exact ⟨h1, h2 (by decide), hrun 4096 (by decide)⟩

/-- Claim C7: a pending terminal condition is sticky: with the buffer
drained it is returned with zero bytes and an untouched state (the source,
even if it still holds chunks, is never pulled again); with processed
bytes pending, those are drained first and the condition is returned
exactly when the buffer empties, withheld otherwise.  When the source
reports a terminal condition (end of stream or a genuine error alike,
`st.terminal` arbitrary) while an arbitrary tail `[0, buf1)` is still
retained unprocessed, the condition is recorded sticky and `buf0` is set
to `buf1` (parts 4 and 5), so the whole tail is flushed alongside the
condition in the same pull; part 6 is the end-to-end stream where the
retained prefix byte of a never-completed token is flushed at end of
stream. -/
theorem claim7_sticky_terminal (st : SRState) (fuel pcap : Nat) (e : Nat) :
    (st.buf0 = 0 → st.err = some e →
      ReadSRR (fuel + 1) st pcap = .ok ([], some e, st)) ∧
    (st.err = some e → st.buf0 = st.buf1 → 0 < st.buf0 → st.buf0 ≤ st.buf.length →
      st.buf0 ≤ pcap →
      ReadSRR (fuel + 1) st pcap =
        .ok (st.buf.take st.buf0, some e, { st with buf0 := 0, buf1 := 0 })) ∧
    (0 < st.buf0 → pcap < st.buf0 → st.buf0 ≤ st.buf1 → st.buf1 ≤ st.buf.length →
      ReadSRR (fuel + 1) st pcap =
        .ok (st.buf.take pcap, none,
          { st with buf := writeAt st.buf 0 ((st.buf.drop pcap).take (st.buf1 - pcap)),
                    buf0 := st.buf0 - pcap, buf1 := st.buf1 - pcap })) ∧
    (st.buf0 = 0 → st.err = none → st.src = [] → st.buf1 ≤ st.maxFill →
      st.maxFill ≤ st.buf.length →
      ReadSRR (fuel + 1) st pcap =
        ReadSRR fuel { st with err := some st.terminal, buf0 := st.buf1 } pcap) ∧
    (st.buf0 = 0 → st.err = none → st.src = [] → st.buf1 ≤ st.maxFill →
      st.maxFill ≤ st.buf.length → st.buf1 ≤ pcap →
      ReadSRR (fuel + 2) st pcap =
        .ok (st.buf.take st.buf1, some st.terminal,
          { st with err := some st.terminal, buf0 := 0, buf1 := 0 })) ∧
    (1 ≤ pcap → drainAll 3 flushSt0 pcap [] = .ok ([97], 0)) :=
  ⟨fun h0 he => ReadSRR_sticky fuel pcap st e h0 he,
   fun he hb h0 hcap hp => ReadSRR_drain_report fuel pcap st e he hb h0 hcap hp,
   fun h0 hp hb hcap => ReadSRR_drain_partial fuel pcap st h0 hp hb hcap,
   fun h0 he hsrc hw hfill => ReadSRR_record_step fuel pcap st h0 he hsrc hw hfill,
   fun h0 he hsrc hw hfill hp => ReadSRR_record_flush fuel pcap st h0 he hsrc hw hfill hp,
   fun hp => flush_run pcap hp⟩

theorem claim7_sticky_terminal_witness :
    ReadSRR 1 wStA 4 = .ok ([], some 5, wStA) ∧
    ReadSRR 1 wStB 4 = .ok ([9, 8], some 5, { wStB with buf0 := 0, buf1 := 0 }) ∧
    ReadSRR 1 wStB 1 =
      .ok ([9], none,
        { wStB with buf := writeAt wStB.buf 0 ((wStB.buf.drop 1).take (wStB.buf1 - 1)),
                    buf0 := wStB.buf0 - 1, buf1 := wStB.buf1 - 1 }) ∧
    ReadSRR 1 wStD 4 = ReadSRR 0 { wStD with err := some 3, buf0 := 1 } 4 ∧
    ReadSRR 2 wStD 4 = .ok ([9], some 3, { wStD with err := some 3, buf0 := 0, buf1 := 0 }) ∧
    ReadSRR 2 wStC 4 = .ok ([], some 6, { wStC with err := some 6, buf0 := 0, buf1 := 0 }) ∧
    drainAll 3 flushSt0 4096 [] = .ok ([97], 0) := by
  refine ⟨(claim7_sticky_terminal wStA 0 4 5).1 rfl rfl, ?_, ?_, ?_, ?_, ?_,
    (claim7_sticky_terminal wStA 0 4096 0).2.2.2.2.2 (by decide)⟩
  · have h := (claim7_sticky_terminal wStB 0 4 5).2.1 rfl rfl (by decide) (by decide)
      (by decide)
    rw [h]
    rfl
  · exact (claim7_sticky_terminal wStB 0 1 5).2.2.1 (by decide) (by decide) (by decide)
      (by decide)
  · exact (claim7_sticky_terminal wStD 0 4 0).2.2.2.1 rfl rfl rfl (by decide) (by decide)
  · have h := (claim7_sticky_terminal wStD 0 4 0).2.2.2.2.1 rfl rfl rfl (by decide)
      (by decide) (by decide)
    rw [h]
    rfl
  · have h := (claim7_sticky_terminal wStC 0 4 0).2.2.2.2.1 rfl rfl rfl (by decide)
      (by decide) (by decide)
    rw [h]
    rfl


/-- Claim C8: `NewReplacer` fails (panics) exactly on an odd flat
argument list; otherwise pairs with an empty search string are dropped and
all other pairs are kept in input order. -/
theorem claim8_newreplacer (flat : List (List Nat)) :
    (NewReplacer flat = none ↔ flat.length % 2 = 1) ∧
    (∀ r, NewReplacer flat = some r →
      r.replaces = (rawPairs flat).filter (fun p => !p.search.isEmpty)) := by
  constructor
  · rw [NewReplacer]
    by_cases h : flat.length % 2 = 1
    · rw [if_pos h]
      simp [h]
    · rw [if_neg h]
      simp [h]
  · intro r hr
    rw [NewReplacer] at hr
    by_cases h : flat.length % 2 = 1
    · rw [if_pos h] at hr
      exact absurd hr (by simp)
    · rw [if_neg h] at hr
      rw [← Option.some.inj hr, foldl_addPair_replaces]
      exact List.nil_append _

theorem claim8_newreplacer_witness :
    NewReplacer [[1], [2], [3]] = none ∧
    (NewReplacer [[], [5], [1], [9]]).map Replacer.replaces = some [⟨[1], [9]⟩] := by
  refine ⟨(claim8_newreplacer [[1], [2], [3]]).1.mpr (by decide), ?_⟩
  cases heq : NewReplacer [[], [5], [1], [9]] with
  | none =>
    have := (claim8_newreplacer [[], [5], [1], [9]]).1.mp heq
    exact absurd this (by decide)
  | some r =>
    have h := (claim8_newreplacer [[], [5], [1], [9]]).2 r heq
    rw [Option.map, h]
    rfl

/-- Claim C9: `Put` on a fixed-size pool with a buffer of the wrong
length returns an error and leaves the allocator (in particular its free
list) unchanged. -/
theorem claim9_pool_put_mismatch (fp : Allocator) (b : List Nat)
    (h : b.length ≠ fp.bufSize) :
    (fp.Put b).1.isSome ∧ (fp.Put b).2 = fp ∧ (fp.Put b).2.freeList = fp.freeList := by
  rw [Allocator.Put, if_pos h]
  exact ⟨rfl, rfl, rfl⟩

theorem claim9_pool_put_mismatch_witness :
    ((NewBytePool 2 4).Put [1, 2]).1.isSome ∧
    ((NewBytePool 2 4).Put [1, 2]).2 = NewBytePool 2 4 ∧
    ((NewBytePool 2 4).Put [1, 2]).2.freeList = (NewBytePool 2 4).freeList :=
  claim9_pool_put_mismatch (NewBytePool 2 4) [1, 2] (by decide)

end Libio
